import Mathlib

/-!
Shallow embedding of the openifs-scmtiles repository (openifs_scm.py,
openifs_pp_main.py) for checking the natural-language specification.

The embedding models:
* `SCMTileRunner._time_to_ifs` (time coordinate transform to OpenIFS form)
  and the time rebase performed by `post_process`;
* the per-cell run pipeline `run_cell` / `run_openifs_scm` / `_scm_runner` /
  `_check_for_run_failures` / `archive_results`, driven by a `World` value
  describing the outcomes of the external effects (staging, process launch,
  files written by the model, archive moves);
* the post-processor `pp_cell` / `pp_tile` / `post_process` / `main`
  (tile assembly by rows, grid assembly sorted by maximum row coordinate,
  final write and cleanup, process exit status).

Python exceptions are modelled with `Except`; machine integers are `Int`/`Nat`.
Time values are integer nanoseconds since the epoch (the exact content of a
numpy `datetime64[ns]` array); `np.round(time_int / 1.e9)` is modelled as
exact round-half-to-even of `t / 10^9`, abstracting from float64 quantization
of the intermediate quotient.
-/

/-! ## Time coordinate transform (`SCMTileRunner._time_to_ifs`) -/

/-- Nanoseconds per second, the unit conversion in `_time_to_ifs`. -/
def nsPerSec : Int := 1000000000

/-- `np.round(t / 1.e9)` for an integer number `t` of nanoseconds: division by
10^9 rounded to the nearest integer, ties to even (numpy banker's rounding).
Lean's `/` and `%` on `Int` are Euclidean, so `t % nsPerSec` is in
`[0, nsPerSec)`. -/
def roundHalfEvenNs (t : Int) : Int :=
  if 2 * (t % nsPerSec) < nsPerSec then t / nsPerSec
  else if 2 * (t % nsPerSec) > nsPerSec then t / nsPerSec + 1
  else if (t / nsPerSec) % 2 = 0 then t / nsPerSec else t / nsPerSec + 1

/-- The job's reference timestamp `config.start_time` (a Python `datetime`
with whole-second precision, as produced by the configuration loader). -/
structure StartTime where
  year : Nat
  month : Nat
  day : Nat
  hour : Nat
  minute : Nat
  sec : Nat
deriving DecidableEq, Repr

/-- `int(reference_date.strftime('%Y%m%d'))`: the date part of the reference
time encoded as the integer YYYYMMDD. -/
def refDateInt (ref : StartTime) : Int :=
  (ref.year * 10000 + ref.month * 100 + ref.day : Nat)

/-- `(reference_time - reference_date).seconds` where `reference_date` is
midnight of the reference day: seconds elapsed since midnight. -/
def secondsSinceMidnight (ref : StartTime) : Int :=
  (ref.hour * 3600 + ref.minute * 60 + ref.sec : Nat)

/-- The three coordinate arrays produced by `_time_to_ifs`: `date`, `second`
and the new relative `time` (in whole seconds). -/
structure TimeCoords where
  date : List Int
  sec : List Int
  time : List Int
deriving DecidableEq, Repr

/-- `SCMTileRunner._time_to_ifs`, acting on the time coordinate `times`
(integer nanoseconds since the epoch) of the tile dataset:
`date` is the constant YYYYMMDD of the reference date, `second` the constant
seconds-since-midnight of the reference time, both replicated to the number
of time points; `time` is each time point rounded to the nearest second
(`np.round(time_int / 1.e9)`) minus the first rounded time point
(`time_rs - time_rs[0]`). -/
def timeToIfs (times : List Int) (ref : StartTime) : TimeCoords :=
  let numberTimes := times.length
  let dateValues := List.replicate numberTimes (refDateInt ref)
  let secondValues := List.replicate numberTimes (secondsSinceMidnight ref)
  let timeRs := times.map roundHalfEvenNs
  let timeValues := timeRs.map (fun t => t - timeRs.headI)
  ⟨dateValues, secondValues, timeValues⟩

/-- The time rebase in `post_process`:
`dataset.coords['time'].values + base_time`, where `base_time` is the
reference timestamp `config.start_time` (here `refSec`, in absolute
seconds) as a `datetime64`. -/
def rebaseTime (rel : List Int) (refSec : Int) : List Int :=
  rel.map (fun t => t + refSec)

/-! ## Cells and artifact naming -/

/-- A grid cell (`scmtiles.grid_manager.Cell`), identified by its global row
and column indices. -/
structure Cell where
  y_global : Nat
  x_global : Nat
deriving DecidableEq, Repr

/-- `'{:0Nd}'.format(n)`: decimal representation of `n` left-padded with
zeros to at least `w` characters. -/
def padN (w : Nat) (n : Nat) : String :=
  let s := toString n
  String.mk (List.replicate (w - s.length) '0') ++ s

/-- `'y{:04d}x{:04d}'.format(cell.y_global, cell.x_global)`. -/
def cellIdStr (c : Cell) : String :=
  "y" ++ padN 4 c.y_global ++ "x" ++ padN 4 c.x_global

/-- `start_time.strftime('%Y%m%d_%H%M%S')`. -/
def dateIdStr (t : StartTime) : String :=
  padN 4 t.year ++ padN 2 t.month ++ padN 2 t.day ++ "_" ++
    padN 2 t.hour ++ padN 2 t.minute ++ padN 2 t.sec

/-- Split a character list at its last dot, returning `none` when it holds
no dot: the base keeps everything before the last dot, the extension the
last dot and what follows it. -/
def splitextChars : List Char → Option (List Char × List Char)
  | [] => none
  | ch :: rest =>
    match splitextChars rest with
    | some (base, ext) => some (ch :: base, ext)
    | none => if ch = '.' then some ([], ch :: rest) else none

/-- `os.path.splitext`: split a file name at its last dot (names beginning
with a dot do not occur here and are not special-cased). -/
def splitext (s : String) : String × String :=
  match splitextChars s.data with
  | some (base, ext) => (String.mk base, String.mk ext)
  | none => (s, "")

/-- Archived file name `'{}.{}.{}{}'.format(af_name, date_id, cell_id, af_ext)`
built by `archive_results`. -/
def targetName (af : String) (dateId cellId : String) : String :=
  (splitext af).1 ++ "." ++ dateId ++ "." ++ cellId ++ (splitext af).2

/-- The configuration fields used by the runner model. -/
structure Config where
  output_directory : String
  start_time : StartTime

/-! ## Per-cell run pipeline (`SCMTileRunner`) -/

/-- The error kinds distinguished by the `SCMError` messages raised in
`openifs_scm.py`. `nonzeroExit` is the kind the source *intends* to raise
for a nonzero model exit status; see `scmRunnerStep` below for what the
source actually does there. -/
inductive ErrKind where
  | execMissing
  | execOsError
  | nonzeroExit
  | fileMissingOrEmpty (name : String)
  | archivePermission
  | archiveDest
deriving DecidableEq, Repr

/-- Python exceptions relevant to the pipeline. `pyNameError` models the
`NameError` raised by evaluating the undefined variable `exit_code`;
`unboundLocal` models `UnboundLocalError` from reading a never-assigned
local. -/
inductive PyExc where
  | scmError (k : ErrKind)
  | tileRunError
  | pyNameError
  | unboundLocal
deriving DecidableEq, Repr

/-- Outcome of `subprocess.run('./master1c.exe')` in `_scm_runner`. -/
inductive Launch where
  | fileNotFound
  | osError
  | permissionError
  | completed (returncode : Int) (stdout stderr : String)
deriving DecidableEq, Repr

/-- The `CompletedProcess` fields used by the source. -/
structure CommandResult where
  returncode : Int
  stdout : String
  stderr : String
deriving DecidableEq, Repr

/-- `SCMTileRunner._scm_runner`: raises `SCMError` for a missing executable
or an OS-level launch failure, otherwise returns the command result.
Note `PermissionError` is a subclass of `OSError`, so the `except OSError`
clause catches it before the dedicated `except PermissionError` clause. -/
def scmRunner : Launch → Except PyExc CommandResult
  | .fileNotFound => .error (.scmError .execMissing)
  | .osError => .error (.scmError .execOsError)
  | .permissionError => .error (.scmError .execOsError)
  | .completed rc out err => .ok ⟨rc, out, err⟩

/-- The files in the run directory after the model ran, as an association
list from file name to size in bytes; a missing entry is a missing file. -/
def FileSys : Type := List (String × Nat)

/-- `os.path.exists(f) and os.stat(f).st_size != 0`. -/
def fileOk (fs : FileSys) (name : String) : Bool :=
  match List.lookup name fs with
  | some sz => sz != 0
  | none => false

/-- The fixed set of output files `_check_for_run_failures` verifies. -/
def expectedFiles : List String :=
  ["onecol.r", "progvar.nc", "diagvar.nc", "diagvar2.nc"]

/-- The loop of `_check_for_run_failures`: raise `SCMError` at the first
expected file that is missing or empty. -/
def checkFiles (fs : FileSys) : List String → Except PyExc Unit
  | [] => .ok ()
  | f :: rest =>
    if fileOk fs f then checkFiles fs rest
    else .error (.scmError (.fileMissingOrEmpty f))

/-- `SCMTileRunner._check_for_run_failures`. -/
def checkForRunFailures (fs : FileSys) : Except PyExc Unit :=
  checkFiles fs expectedFiles

/-- Outcome of one `shutil.move` during `archive_results`. -/
inductive MoveOutcome where
  | ok
  | permissionDenied
  | fileNotFound
deriving DecidableEq, Repr

/-- The three files `archive_results` moves to the output directory. -/
def archiveFiles : List String := ["diagvar.nc", "diagvar2.nc", "progvar.nc"]

/-- The loop of `archive_results`: move each file, renamed with the job
timestamp and cell id, into the output directory; `PermissionError` and
`FileNotFoundError` are converted to `SCMError`s. Returns the archived
target paths. -/
def archiveLoop (cfg : Config) (cell : Cell) (moves : String → MoveOutcome) :
    List String → Except PyExc (List String)
  | [] => .ok []
  | af :: rest =>
    match moves af with
    | .permissionDenied => .error (.scmError .archivePermission)
    | .fileNotFound => .error (.scmError .archiveDest)
    | .ok =>
      match archiveLoop cfg cell moves rest with
      | .error e => .error e
      | .ok ts =>
        .ok ((cfg.output_directory ++ "/" ++
          targetName af (dateIdStr cfg.start_time) (cellIdStr cell)) :: ts)

/-- `SCMTileRunner.archive_results`. -/
def archive_results (cfg : Config) (cell : Cell)
    (moves : String → MoveOutcome) : Except PyExc (List String) :=
  archiveLoop cfg cell moves archiveFiles

/-- One cell run's interaction with the outside world: whether staging
(`setup_openifs_scm`) succeeds, the launch outcome of the model process,
the files the model left in the run directory, the outcome of each archive
move, and whether `shutil.move` of the run directory to the failed-run
archive succeeds (a failed move raising `PermissionError` or
`FileNotFoundError`, which the source swallows). -/
structure World where
  stagingOk : Bool
  launch : Launch
  files : FileSys
  moves : String → MoveOutcome
  failedMoveOk : Bool

/-- Side effects of the failed-run archival branch in `run_openifs_scm`:
whether `stdout.txt`/`stderr.txt` were dumped into the run directory, and
the archive directory the run directory was moved to (if the move
happened and succeeded). -/
structure RunScmEffects where
  dumpedStd : Bool
  movedTo : Option String
deriving DecidableEq, Repr

/-- Name `'failed.{}.{}'.format(date_id, cell_id)` of the failed-run
archive directory. -/
def failedDirName (cfg : Config) (cell : Cell) : String :=
  "failed." ++ dateIdStr cfg.start_time ++ "." ++ cellIdStr cell

/-- `SCMTileRunner.run_openifs_scm`. The inner try body runs the model and
checks its outputs; a nonzero exit status evaluates
`msg.format(exit_code)` where `exit_code` is an undefined name, so Python
raises `NameError` instead of the intended `SCMError`. The
`except SCMError` clause (which therefore does not see the nonzero-exit
case) optionally dumps captured output and moves the run directory to the
failed-run archive, then re-raises. The `Bool` paired with the inner
result records whether `command_result` was bound (writing the dump files
raises `UnboundLocalError`, swallowed, when it was not). -/
def run_openifs_scm (cfg : Config) (cell : Cell) (archiveFailedRuns : Bool)
    (w : World) : Except PyExc Unit × RunScmEffects :=
  let inner : Except PyExc Unit × Bool :=
    match scmRunner w.launch with
    | .error e => (.error e, false)
    | .ok cr =>
      if cr.returncode != 0 then (.error .pyNameError, true)
      else (checkForRunFailures w.files, true)
  match inner with
  | (.ok (), _) => (.ok (), ⟨false, none⟩)
  | (.error e, crBound) =>
    match e with
    | .scmError k =>
      if archiveFailedRuns then
        let moved := if w.failedMoveOk then some (failedDirName cfg cell)
          else none
        (.error (.scmError k), ⟨crBound, moved⟩)
      else (.error (.scmError k), ⟨false, none⟩)
    | _ => (.error e, ⟨false, none⟩)

/-- A `CellResult`: `outputs` present (success) or absent (failure). -/
inductive CellResultR where
  | success (outputs : List String)
  | failure
deriving DecidableEq, Repr

/-- Fate of the cell's run directory once `run_cell` finishes. -/
inductive DirFate where
  | notCreated
  | deleted
  | movedTo (name : String)
  | leftInPlace
deriving DecidableEq, Repr

instance {ε α : Type} [DecidableEq ε] [DecidableEq α] :
    DecidableEq (Except ε α) := fun a b =>
  match a, b with
  | .ok x, .ok y =>
    match decEq x y with
    | .isTrue h => .isTrue (by rw [h])
    | .isFalse h => .isFalse (by intro hc; cases hc; exact h rfl)
  | .ok _, .error _ => .isFalse (by intro hc; cases hc)
  | .error _, .ok _ => .isFalse (by intro hc; cases hc)
  | .error x, .error y =>
    match decEq x y with
    | .isTrue h => .isTrue (by rw [h])
    | .isFalse h => .isFalse (by intro hc; cases hc; exact h rfl)

/-- Observable outcome of `run_cell`: the value returned (or the exception
escaping it), the fate of the run directory, and the failed-run archival
effects. -/
structure CellOutcome where
  result : Except PyExc CellResultR
  dirFate : DirFate
  eff : RunScmEffects
deriving DecidableEq, Repr

/-- `SCMTileRunner.run_cell`. Staging failure: `run_directory` is never
bound, the exception is caught, and the `finally` block's `rmtree` raises
`UnboundLocalError` which is swallowed. `SCMError`/`TileRunError` from the
run or archive steps are caught and turned into a failure `CellResult`;
the `finally` block deletes the run directory unless the run failed with
`archive_failed_runs` set. Any other exception (the `NameError` from a
nonzero exit status) is not caught, and then the `finally` block reads the
never-assigned local `run_successful`, so `UnboundLocalError` escapes
`run_cell`. -/
def run_cell (cfg : Config) (cell : Cell) (archiveFailedRuns : Bool)
    (w : World) : CellOutcome :=
  if w.stagingOk = false then
    ⟨.ok .failure, .notCreated, ⟨false, none⟩⟩
  else
    match run_openifs_scm cfg cell archiveFailedRuns w with
    | (.ok (), eff) =>
      match archive_results cfg cell w.moves with
      | .ok outs => ⟨.ok (.success outs), .deleted, eff⟩
      | .error (.scmError _) =>
        ⟨.ok .failure, if archiveFailedRuns then .leftInPlace else .deleted,
          eff⟩
      | .error _ => ⟨.error .unboundLocal, .leftInPlace, eff⟩
    | (.error (.scmError _), eff) =>
      match eff.movedTo with
      | some name => ⟨.ok .failure, .movedTo name, eff⟩
      | none =>
        ⟨.ok .failure, if archiveFailedRuns then .leftInPlace else .deleted,
          eff⟩
    | (.error (.tileRunError), eff) =>
      ⟨.ok .failure, if archiveFailedRuns then .leftInPlace else .deleted,
        eff⟩
    | (.error _, eff) => ⟨.error .unboundLocal, .leftInPlace, eff⟩

/-! ## Post-processor (`openifs_pp_main.py`) -/

/-- Errors raised by the post-processor (`class Error`). -/
inductive PPErr where
  | unreadable (c : Cell)
  | writeFailed
deriving DecidableEq, Repr

/-- One step of the `pp_tile` loop body
`grid_rows[cell.y_global].append(cell_ds)` /
`grid_rows[cell.y_global] = [cell_ds]` on an `OrderedDict` represented as
an association list in key-insertion order (a cell dataset is represented
by the cell that tags it). -/
def addToRows (rows : List (Nat × List Cell)) (c : Cell) :
    List (Nat × List Cell) :=
  match rows with
  | [] => [(c.y_global, [c])]
  | (k, r) :: rest =>
    if k = c.y_global then (k, r ++ [c]) :: rest
    else (k, r) :: addToRows rest c

/-- The `grid_rows` mapping built by `pp_tile` from the sequence of cell
datasets, in encounter order. -/
def groupRows (cells : List Cell) : List (Nat × List Cell) :=
  cells.foldl addToRows []

/-- The tile dataset assembled by `pp_tile`: each row becomes
`xr.concat(row, dim=xname)` (the list of cell datasets in the stored
order) and the rows are concatenated along the y dimension in the stored
key order (a single row is returned as-is, which concatenation of one row
also yields). -/
def ppTileAssemble (cells : List Cell) : List (List Cell) :=
  (groupRows cells).map Prod.snd

/-- Strict row-major order on cells: the order in which
`RectangularTile.cells()` yields the cells of a tile. -/
def rowMajorLT (a b : Cell) : Prop :=
  a.y_global < b.y_global ∨ (a.y_global = b.y_global ∧ a.x_global < b.x_global)

instance : DecidableRel rowMajorLT := fun a b => by
  unfold rowMajorLT; infer_instance

/-- `pp_cell` as seen by `pp_tile`: load the cell dataset from the cell's
output files, raising `Error` when they cannot be read; the dataset is
represented by the cell tagging it. -/
def pp_cell (readable : Cell → Bool) (c : Cell) : Except PPErr Cell :=
  if readable c then .ok c else .error (.unreadable c)

/-- The loop of `pp_tile` over the tile's cells: load each cell dataset and
add it to `grid_rows`; an exception from `pp_cell` propagates immediately
(there is no per-cell handler in the post-processor). -/
def ppTileLoop (readable : Cell → Bool) (g : List (Nat × List Cell)) :
    List Cell → Except PPErr (List (Nat × List Cell))
  | [] => .ok g
  | c :: rest =>
    match pp_cell readable c with
    | .ok d => ppTileLoop readable (addToRows g d) rest
    | .error e => .error e

/-- `pp_tile`: run the loop then concatenate the rows. -/
def pp_tile (readable : Cell → Bool) (cells : List Cell) :
    Except PPErr (List (List Cell)) :=
  match ppTileLoop readable [] cells with
  | .ok g => .ok (g.map Prod.snd)
  | .error e => .error e

/-- `process_pool.map(partial(pp_tile, ...), tiles)`: an exception raised
in any worker is re-raised by `map` in the coordinating process. -/
def postProcessTiles (readable : Cell → Bool) :
    List (List Cell) → Except PPErr (List (List (List Cell)))
  | [] => .ok []
  | t :: rest =>
    match pp_tile readable t with
    | .error e => .error e
    | .ok ds =>
      match postProcessTiles readable rest with
      | .error e => .error e
      | .ok rs => .ok (ds :: rs)

/-- Exit status of `main` for the dispatch-and-assemble phase: `Error` is
caught and turned into exit status 1, otherwise 0. -/
def ppMainExit (readable : Cell → Bool) (tiles : List (List Cell)) : Nat :=
  match postProcessTiles readable tiles with
  | .ok _ => 0
  | .error _ => 1

/-- A tile dataset as consumed by the grid assembly in `post_process`:
its tile id and the values of its row (y) coordinate. -/
structure TileDS where
  tid : Nat
  yvals : List Int
deriving DecidableEq, Repr

/-- `ds[config.yname].values.max()` on a nonempty coordinate array. -/
def maxCoord (l : List Int) : Int :=
  l.foldl max l.headI

/-- The sort key of `post_process`'s grid assembly:
`key=lambda ds: ds[config.yname].values.max()`. -/
def tileKey (t : TileDS) : Int := maxCoord t.yvals

/-- Comparison used by `sorted` with the `tileKey` key function. -/
def tileLe (a b : TileDS) : Prop := tileKey a ≤ tileKey b

instance : DecidableRel tileLe := fun a b => by
  unfold tileLe; infer_instance

instance : IsTotal TileDS tileLe :=
  ⟨fun a b => Int.le_total (tileKey a) (tileKey b)⟩

instance : IsTrans TileDS tileLe :=
  ⟨fun _ _ _ h₁ h₂ => le_trans h₁ h₂⟩

/-- `xr.concat(sorted(results, key=...), dim=yname)`: the grid dataset is
the ordered concatenation of the tile datasets sorted by maximum row
coordinate (Python's `sorted` is a stable comparison sort, modelled by
insertion sort, which is also stable). -/
def gridAssemble (tiles : List TileDS) : List TileDS :=
  tiles.insertionSort tileLe

/-- Outcome of `dataset.transpose(...).to_netcdf(output_filepath)`. -/
inductive WriteOutcome where
  | ok
  | runtimeError
deriving DecidableEq, Repr

/-- Observable final state of `post_process` after the grid dataset is
assembled: whether the output file was written, the exception raised out
of `post_process` (if any), the `Error` value that was constructed and
discarded (the `except RuntimeError` clause builds
`Error('failed write grid to disk: ...')` but has no `raise`), and whether
the per-cell directories were deleted. -/
structure PPFinal where
  written : Bool
  raised : Option PPErr
  discarded : Option PPErr
  dirsDeleted : Bool
deriving DecidableEq, Repr

/-- The tail of `post_process`: write the combined output file, then, if
`delete_cell_files` is set, delete every per-cell directory. A
`RuntimeError` from the write is caught; the handler constructs an `Error`
without raising it, so execution falls through to the cleanup step either
way and nothing propagates. -/
def postProcessFinalize (w : WriteOutcome) (deleteCellFiles : Bool) :
    PPFinal :=
  match w with
  | .ok => ⟨true, none, none, deleteCellFiles⟩
  | .runtimeError => ⟨false, none, some .writeFailed, deleteCellFiles⟩

/-- `main`'s exit status given what `post_process`'s final phase raised:
`except Error` yields 1, a normal return yields 0. -/
def ppFinalExit (st : PPFinal) : Nat :=
  match st.raised with
  | some _ => 1
  | none => 0

/-! ## Concrete configurations and worlds used in witnesses -/

/-- A concrete configuration used to evaluate the model. -/
def cfgEx : Config := ⟨"out", ⟨2009, 4, 6, 1, 0, 0⟩⟩

/-- A concrete cell used to evaluate the model. -/
def cellEx : Cell := ⟨1, 2⟩

/-- All four expected output files present and non-empty. -/
def okFiles : FileSys :=
  [("onecol.r", 10), ("progvar.nc", 20), ("diagvar.nc", 30),
   ("diagvar2.nc", 40)]

/-- A run where the model process exits with status 1. -/
def wNonzero : World := ⟨true, .completed 1 "" "", okFiles, fun _ => .ok, true⟩

/-- A run where the model exits 0 but leaves `progvar.nc` empty. -/
def wVerifyFail : World :=
  ⟨true, .completed 0 "" "",
    [("onecol.r", 10), ("progvar.nc", 0), ("diagvar.nc", 30),
     ("diagvar2.nc", 40)],
    fun _ => .ok, true⟩

/-- A successful model run where archiving `diagvar.nc` hits
`PermissionError`. -/
def wArchiveFail : World :=
  ⟨true, .completed 0 "" "", okFiles,
    fun f => if f = "diagvar.nc" then .permissionDenied else .ok, true⟩

/-- A fully successful run. -/
def wOk : World := ⟨true, .completed 0 "" "", okFiles, fun _ => .ok, true⟩

/-- A run where the model executable cannot be located. -/
def wLaunchMissing : World := ⟨true, .fileNotFound, okFiles, fun _ => .ok, true⟩

/-! ## Helper lemmas -/

/-- Whether an `Except` value is a normal return. -/
def exceptOk {ε α : Type} : Except ε α → Bool
  | .ok _ => true
  | .error _ => false

theorem checkFiles_isOk (fs : FileSys) (l : List String) :
    exceptOk (checkFiles fs l) = l.all (fileOk fs) := by
  induction l with
  | nil => rfl
  | cons f rest ih =>
    by_cases h : fileOk fs f
    · simpa [checkFiles, h] using ih
    · simp [checkFiles, h, exceptOk]

theorem checkFiles_form (fs : FileSys) (l : List String) :
    checkFiles fs l = .ok () ∨
      ∃ name ∈ l, checkFiles fs l =
        .error (.scmError (.fileMissingOrEmpty name)) ∧ fileOk fs name = false := by
  induction l with
  | nil => exact .inl rfl
  | cons f rest ih =>
    by_cases h : fileOk fs f
    · rcases ih with h' | ⟨name, hm, he, hb⟩
      · exact .inl (by simp [checkFiles, h, h'])
      · exact .inr ⟨name, by simp [hm], by simp [checkFiles, h, he], hb⟩
    · exact .inr ⟨f, by simp, by simp [checkFiles, h], by simpa using h⟩

theorem checkFiles_error_of_bad (fs : FileSys) (l : List String)
    (f : String) (hf : f ∈ l) (hb : fileOk fs f = false) :
    ∃ name, checkFiles fs l = .error (.scmError (.fileMissingOrEmpty name)) := by
  rcases checkFiles_form fs l with h | ⟨name, _, he, _⟩
  · exfalso
    have hval := checkFiles_isOk fs l
    rw [h] at hval
    have hall : l.all (fileOk fs) = true := by simpa [exceptOk] using hval.symm
    have hbad := List.all_eq_true.mp hall f hf
    simp [hb] at hbad
  · exact ⟨name, he⟩

theorem archiveLoop_ok (cfg : Config) (cell : Cell)
    (moves : String → MoveOutcome) (l : List String)
    (h : ∀ f ∈ l, moves f = .ok) :
    archiveLoop cfg cell moves l =
      .ok (l.map (fun af => cfg.output_directory ++ "/" ++
        targetName af (dateIdStr cfg.start_time) (cellIdStr cell))) := by
  induction l with
  | nil => rfl
  | cons af rest ih =>
    have haf : moves af = .ok := h af (by simp)
    have hrest : ∀ f ∈ rest, moves f = .ok := fun f hf => h f (by simp [hf])
    simp [archiveLoop, haf, ih hrest]

theorem archiveLoop_error (cfg : Config) (cell : Cell)
    (moves : String → MoveOutcome) (l : List String)
    (f : String) (hf : f ∈ l) (hb : moves f ≠ .ok) :
    ∃ k, archiveLoop cfg cell moves l = .error (.scmError k) := by
  induction l with
  | nil => simp at hf
  | cons af rest ih =>
    rcases List.mem_cons.mp hf with rfl | hmem
    · cases hm : moves f
      · exact absurd hm hb
      · exact ⟨.archivePermission, by simp [archiveLoop, hm]⟩
      · exact ⟨.archiveDest, by simp [archiveLoop, hm]⟩
    · cases hm : moves af
      · rcases ih hmem with ⟨k, hk⟩
        exact ⟨k, by simp [archiveLoop, hm, hk]⟩
      · exact ⟨.archivePermission, by simp [archiveLoop, hm]⟩
      · exact ⟨.archiveDest, by simp [archiveLoop, hm]⟩

theorem scmRunner_error_form (l : Launch) (e : PyExc)
    (h : scmRunner l = .error e) : ∃ k, e = .scmError k := by
  cases l with
  | fileNotFound => exact ⟨.execMissing, by simpa [scmRunner] using h.symm⟩
  | osError => exact ⟨.execOsError, by simpa [scmRunner] using h.symm⟩
  | permissionError => exact ⟨.execOsError, by simpa [scmRunner] using h.symm⟩
  | completed rc out err => simp [scmRunner] at h

theorem run_openifs_scm_launch_fail (cfg : Config) (cell : Cell)
    (afr : Bool) (w : World) (k : ErrKind)
    (hl : scmRunner w.launch = .error (.scmError k)) :
    run_openifs_scm cfg cell afr w =
      (.error (.scmError k),
        ⟨false,
          if afr then
            (if w.failedMoveOk then some (failedDirName cfg cell) else none)
          else none⟩) := by
  by_cases h : afr <;> simp [run_openifs_scm, hl, h]

theorem run_openifs_scm_nonzero (cfg : Config) (cell : Cell)
    (afr : Bool) (w : World) (cr : CommandResult)
    (hl : scmRunner w.launch = .ok cr) (hrc : cr.returncode ≠ 0) :
    run_openifs_scm cfg cell afr w = (.error .pyNameError, ⟨false, none⟩) := by
  simp [run_openifs_scm, hl, hrc]

theorem run_openifs_scm_verify_fail (cfg : Config) (cell : Cell)
    (afr : Bool) (w : World) (cr : CommandResult) (k : ErrKind)
    (hl : scmRunner w.launch = .ok cr) (hrc : cr.returncode = 0)
    (hc : checkForRunFailures w.files = .error (.scmError k)) :
    run_openifs_scm cfg cell afr w =
      (.error (.scmError k),
        ⟨afr,
          if afr then
            (if w.failedMoveOk then some (failedDirName cfg cell) else none)
          else none⟩) := by
  by_cases h : afr <;> simp [run_openifs_scm, hl, hrc, hc, h]

theorem run_openifs_scm_ok (cfg : Config) (cell : Cell)
    (afr : Bool) (w : World) (cr : CommandResult)
    (hl : scmRunner w.launch = .ok cr) (hrc : cr.returncode = 0)
    (hc : checkForRunFailures w.files = .ok ()) :
    run_openifs_scm cfg cell afr w = (.ok (), ⟨false, none⟩) := by
  simp [run_openifs_scm, hl, hrc, hc]

theorem run_openifs_scm_ok_inv (cfg : Config) (cell : Cell)
    (afr : Bool) (w : World) (eff : RunScmEffects)
    (h : run_openifs_scm cfg cell afr w = (.ok (), eff)) :
    ∃ cr, scmRunner w.launch = .ok cr ∧ cr.returncode = 0 ∧
      checkForRunFailures w.files = .ok () := by
  cases hl : scmRunner w.launch with
  | error e =>
    rcases scmRunner_error_form _ _ hl with ⟨k, rfl⟩
    rw [run_openifs_scm_launch_fail cfg cell afr w k hl] at h
    exact absurd (congrArg Prod.fst h) (by simp)
  | ok cr =>
    by_cases hrc : cr.returncode = 0
    · cases hc : checkForRunFailures w.files with
      | ok u =>
        cases u
        exact ⟨cr, rfl, hrc, rfl⟩
      | error e =>
        exfalso
        rcases checkFiles_form w.files expectedFiles with hok | ⟨name, _, he, _⟩
        · simp [checkForRunFailures, hok] at hc
        · rw [run_openifs_scm_verify_fail cfg cell afr w cr _ hl hrc he] at h
          exact absurd (congrArg Prod.fst h) (by simp)
    · rw [run_openifs_scm_nonzero cfg cell afr w cr hl hrc] at h
      exact absurd (congrArg Prod.fst h) (by simp)

theorem archiveLoop_error_form (cfg : Config) (cell : Cell)
    (moves : String → MoveOutcome) (l : List String) (e : PyExc)
    (h : archiveLoop cfg cell moves l = .error e) : ∃ k, e = .scmError k := by
  induction l with
  | nil => simp [archiveLoop] at h
  | cons af rest ih =>
    cases hm : moves af
    · rw [archiveLoop, hm] at h
      cases hr : archiveLoop cfg cell moves rest with
      | ok ts => rw [hr] at h; simp at h
      | error e' =>
        rw [hr] at h
        simp at h
        exact ih (by rw [hr, h])
    · rw [archiveLoop, hm] at h
      simp at h
      exact ⟨.archivePermission, h.symm⟩
    · rw [archiveLoop, hm] at h
      simp at h
      exact ⟨.archiveDest, h.symm⟩

theorem run_cell_staging_fail (cfg : Config) (cell : Cell) (afr : Bool)
    (w : World) (hst : w.stagingOk = false) :
    run_cell cfg cell afr w = ⟨.ok .failure, .notCreated, ⟨false, none⟩⟩ := by
  simp [run_cell, hst]

theorem run_cell_scm_error (cfg : Config) (cell : Cell) (afr : Bool)
    (w : World) (k : ErrKind) (eff : RunScmEffects)
    (hst : w.stagingOk = true)
    (hro : run_openifs_scm cfg cell afr w = (.error (.scmError k), eff)) :
    run_cell cfg cell afr w =
      ⟨.ok .failure,
        match eff.movedTo with
        | some name => .movedTo name
        | none => if afr then .leftInPlace else .deleted,
        eff⟩ := by
  cases hm : eff.movedTo <;> simp [run_cell, hst, hro, hm]

theorem run_cell_archive_error (cfg : Config) (cell : Cell) (afr : Bool)
    (w : World) (k : ErrKind) (eff : RunScmEffects)
    (hst : w.stagingOk = true)
    (hro : run_openifs_scm cfg cell afr w = (.ok (), eff))
    (ha : archive_results cfg cell w.moves = .error (.scmError k)) :
    run_cell cfg cell afr w =
      ⟨.ok .failure, if afr then .leftInPlace else .deleted, eff⟩ := by
  simp [run_cell, hst, hro, ha]

theorem run_cell_uncaught (cfg : Config) (cell : Cell) (afr : Bool)
    (w : World) (eff : RunScmEffects)
    (hst : w.stagingOk = true)
    (hro : run_openifs_scm cfg cell afr w = (.error .pyNameError, eff)) :
    run_cell cfg cell afr w = ⟨.error .unboundLocal, .leftInPlace, eff⟩ := by
  simp [run_cell, hst, hro]

theorem run_cell_all_ok (cfg : Config) (cell : Cell) (afr : Bool)
    (w : World) (cr : CommandResult) (ts : List String)
    (hst : w.stagingOk = true)
    (hl : scmRunner w.launch = .ok cr) (hrc : cr.returncode = 0)
    (hc : checkForRunFailures w.files = .ok ())
    (ha : archive_results cfg cell w.moves = .ok ts) :
    run_cell cfg cell afr w = ⟨.ok (.success ts), .deleted, ⟨false, none⟩⟩ := by
  simp [run_cell, hst, run_openifs_scm_ok cfg cell afr w cr hl hrc hc, ha]

theorem run_cell_success_inv (cfg : Config) (cell : Cell) (afr : Bool)
    (w : World) (outs : List String)
    (h : (run_cell cfg cell afr w).result = .ok (.success outs)) :
    w.stagingOk = true ∧
    (∃ cr, scmRunner w.launch = .ok cr ∧ cr.returncode = 0 ∧
      checkForRunFailures w.files = .ok ()) ∧
    archive_results cfg cell w.moves = .ok outs ∧
    (run_cell cfg cell afr w).dirFate = .deleted := by
  cases hst : w.stagingOk with
  | false => rw [run_cell_staging_fail cfg cell afr w hst] at h; simp at h
  | true =>
    rcases hro : run_openifs_scm cfg cell afr w with ⟨res, eff⟩
    cases res with
    | ok u =>
      cases u
      cases ha : archive_results cfg cell w.moves with
      | ok outs' =>
        have hr : run_cell cfg cell afr w =
            ⟨.ok (.success outs'), .deleted, eff⟩ := by
          simp [run_cell, hst, hro, ha]
        rw [hr] at h
        simp at h
        exact ⟨rfl, run_openifs_scm_ok_inv cfg cell afr w eff hro,
          by rw [← h], by rw [hr]⟩
      | error e =>
        rcases archiveLoop_error_form cfg cell w.moves archiveFiles e ha
          with ⟨k, rfl⟩
        rw [run_cell_archive_error cfg cell afr w k eff hst hro ha] at h
        simp at h
    | error e =>
      cases e with
      | scmError k =>
        rw [run_cell_scm_error cfg cell afr w k eff hst hro] at h
        revert h
        cases eff.movedTo <;> simp
      | tileRunError => simp [run_cell, hst, hro] at h
      | pyNameError =>
        rw [run_cell_uncaught cfg cell afr w eff hst hro] at h
        simp at h
      | unboundLocal => simp [run_cell, hst, hro] at h

theorem timeToIfs_time_eq (times : List Int) (ref : StartTime) :
    (timeToIfs times ref).time =
      times.map (fun t => roundHalfEvenNs t - roundHalfEvenNs times.headI) := by
  cases times with
  | nil => rfl
  | cons a l =>
    simp [timeToIfs, List.map_map, List.headI, Function.comp]

theorem roundHalfEvenNs_nearest (t : Int) :
    2 * (roundHalfEvenNs t * nsPerSec - t).natAbs ≤ 1000000000 := by
  have hpos : (0 : Int) < nsPerSec := by decide
  have h0 : (0 : Int) ≤ t % nsPerSec := Int.emod_nonneg t (by decide)
  have h1 : t % nsPerSec < nsPerSec := Int.emod_lt_of_pos t hpos
  have h2 : nsPerSec * (t / nsPerSec) + t % nsPerSec = t :=
    Int.ediv_add_emod t nsPerSec
  rw [roundHalfEvenNs]
  have hns : nsPerSec = 1000000000 := rfl
  rw [hns] at h0 h1 h2 ⊢
  split_ifs <;> omega

/-- The ordering property the spec ascribes to an assembled tile: row keys
strictly ascending, every cell stored under a row key carries that row's y
value, and cells within each row strictly ascending in x. -/
def rowsAscending (g : List (Nat × List Cell)) : Prop :=
  (g.map Prod.fst).Pairwise (· < ·) ∧
  ∀ p ∈ g, (∀ c ∈ p.2, c.y_global = p.1) ∧
    (p.2.map Cell.x_global).Pairwise (· < ·)

instance : DecidablePred rowsAscending := fun g => by
  unfold rowsAscending; infer_instance

/-- `c` comes strictly after every cell recorded in `g` in row-major
order. -/
def cellBeyond (g : List (Nat × List Cell)) (c : Cell) : Prop :=
  ∀ p ∈ g, p.1 ≤ c.y_global ∧
    (p.1 = c.y_global → ∀ d ∈ p.2, d.x_global < c.x_global)

theorem mem_addToRows (g : List (Nat × List Cell)) (c : Cell)
    (p : Nat × List Cell) (hp : p ∈ addToRows g c) :
    p ∈ g ∨ p = (c.y_global, [c]) ∨
      ∃ row, (c.y_global, row) ∈ g ∧ p = (c.y_global, row ++ [c]) := by
  induction g with
  | nil =>
    simp [addToRows] at hp
    exact .inr (.inl hp)
  | cons q rest ih =>
    rcases q with ⟨k, r⟩
    by_cases hk : k = c.y_global
    · subst hk
      simp [addToRows] at hp
      rcases hp with h | h
      · exact .inr (.inr ⟨r, by simp, h⟩)
      · exact .inl (List.mem_cons_of_mem _ h)
    · simp [addToRows, hk] at hp
      rcases hp with h | h
      · exact .inl (by simp [h])
      · rcases ih h with h' | h' | ⟨row, hrow, h'⟩
        · exact .inl (List.mem_cons_of_mem _ h')
        · exact .inr (.inl h')
        · exact .inr (.inr ⟨row, List.mem_cons_of_mem _ hrow, h'⟩)

theorem keys_addToRows (g : List (Nat × List Cell)) (c : Cell) :
    (addToRows g c).map Prod.fst =
      if c.y_global ∈ g.map Prod.fst then g.map Prod.fst
      else g.map Prod.fst ++ [c.y_global] := by
  induction g with
  | nil => simp [addToRows]
  | cons q rest ih =>
    rcases q with ⟨k, r⟩
    by_cases hk : k = c.y_global
    · subst hk; simp [addToRows]
    · have hk' : ¬ c.y_global = k := fun h => hk h.symm
      by_cases hmem : c.y_global ∈ rest.map Prod.fst <;>
        simp [addToRows, hk, hk', ih, hmem]

theorem rowsAscending_addToRows (g : List (Nat × List Cell)) (c : Cell)
    (hg : rowsAscending g) (hb : cellBeyond g c) :
    rowsAscending (addToRows g c) := by
  constructor
  · rw [keys_addToRows]
    by_cases hmem : c.y_global ∈ g.map Prod.fst
    · simpa [hmem] using hg.1
    · rw [if_neg hmem, List.pairwise_append]
      refine ⟨hg.1, by simp, ?_⟩
      intro a ha b hb'
      simp at hb'
      subst hb'
      rcases List.mem_map.mp ha with ⟨p, hp, rfl⟩
      have hle := (hb p hp).1
      have hne : p.1 ≠ c.y_global := fun h =>
        hmem (h ▸ List.mem_map_of_mem Prod.fst hp)
      omega
  · intro p hp
    rcases mem_addToRows g c p hp with h | h | ⟨row, hrow, rfl⟩
    · exact hg.2 p h
    · subst h
      refine ⟨?_, by simp⟩
      intro d hd
      simp at hd
      subst hd
      rfl
    · refine ⟨?_, ?_⟩
      · intro d hd
        rcases List.mem_append.mp hd with hd | hd
        · exact (hg.2 _ hrow).1 d hd
        · simp at hd; subst hd; rfl
      · rw [List.map_append, List.pairwise_append]
        refine ⟨(hg.2 _ hrow).2, by simp, ?_⟩
        intro a ha b hb'
        simp at hb'
        subst hb'
        rcases List.mem_map.mp ha with ⟨d, hd, rfl⟩
        exact (hb _ hrow).2 rfl d hd

theorem cellBeyond_addToRows (g : List (Nat × List Cell)) (c c' : Cell)
    (hb' : cellBeyond g c') (hlt : rowMajorLT c c') :
    cellBeyond (addToRows g c) c' := by
  intro p hp
  rcases mem_addToRows g c p hp with h | h | ⟨row, hrow, rfl⟩
  · exact hb' p h
  · subst h
    refine ⟨?_, ?_⟩
    · rcases hlt with h | ⟨h, _⟩ <;> omega
    · intro hy d hd
      simp at hd
      subst hd
      rcases hlt with h | ⟨_, h⟩
      · simp at hy; omega
      · exact h
  · have hold := hb' _ hrow
    refine ⟨hold.1, ?_⟩
    intro hy d hd
    rcases List.mem_append.mp hd with hd | hd
    · exact hold.2 hy d hd
    · simp at hd
      subst hd
      rcases hlt with h | ⟨_, h⟩
      · simp at hy; omega
      · exact h

theorem rowsAscending_foldl (l : List Cell) :
    ∀ g, l.Pairwise rowMajorLT → rowsAscending g →
      (∀ c ∈ l, cellBeyond g c) → rowsAscending (l.foldl addToRows g) := by
  induction l with
  | nil =>
    intro g _ hg _
    simpa using hg
  | cons c rest ih =>
    intro g hp hg hb
    rw [List.foldl_cons]
    have hpc := List.pairwise_cons.mp hp
    exact ih (addToRows g c) hpc.2
      (rowsAscending_addToRows g c hg (hb c (by simp)))
      (fun c' hc' =>
        cellBeyond_addToRows g c c' (hb c' (by simp [hc'])) (hpc.1 c' hc'))

theorem sorted_perm_nodup_keys_eq :
    ∀ l₁ l₂ : List TileDS, l₁.Perm l₂ → l₁.Pairwise tileLe →
      l₂.Pairwise tileLe → (l₁.map tileKey).Nodup → l₁ = l₂ := by
  intro l₁
  induction l₁ with
  | nil =>
    intro l₂ hp _ _ _
    have := hp.length_eq
    cases l₂ with
    | nil => rfl
    | cons b bs => simp at this
  | cons a as ih =>
    intro l₂ hp hs₁ hs₂ hnd
    cases l₂ with
    | nil =>
      have := hp.length_eq
      simp at this
    | cons b bs =>
      have hnd' : (∀ x ∈ as, ¬ tileKey x = tileKey a) ∧
          (as.map tileKey).Nodup := by simpa using hnd
      have hab : a = b := by
        by_contra hne
        have hbmem : b ∈ a :: as := hp.mem_iff.mpr (by simp)
        have hamem : a ∈ b :: bs := hp.mem_iff.mp (by simp)
        have hbas : b ∈ as := by
          rcases List.mem_cons.mp hbmem with h | h
          · exact absurd h.symm hne
          · exact h
        have habs : a ∈ bs := by
          rcases List.mem_cons.mp hamem with h | h
          · exact absurd h hne
          · exact h
        have h₁ : tileLe a b := (List.pairwise_cons.mp hs₁).1 b hbas
        have h₂ : tileLe b a := (List.pairwise_cons.mp hs₂).1 a habs
        have hkey : tileKey a = tileKey b := le_antisymm h₁ h₂
        exact hnd'.1 b hbas hkey.symm
      subst hab
      have htail : as.Perm bs := hp.cons_inv
      exact congrArg (List.cons a)
        (ih bs htail (List.pairwise_cons.mp hs₁).2
          (List.pairwise_cons.mp hs₂).2 hnd'.2)

theorem ppTileLoop_error (readable : Cell → Bool) (cells : List Cell)
    (c : Cell) (hc : c ∈ cells) (hr : readable c = false) :
    ∀ g, ∃ c', ppTileLoop readable g cells = .error (.unreadable c') ∧
      readable c' = false := by
  induction cells with
  | nil => simp at hc
  | cons d rest ih =>
    intro g
    by_cases hd : readable d
    · rcases List.mem_cons.mp hc with rfl | hmem
      · rw [hd] at hr
        cases hr
      · have := ih hmem (addToRows g d)
        simpa [ppTileLoop, pp_cell, hd] using this
    · refine ⟨d, by simp [ppTileLoop, pp_cell, hd], by simpa using hd⟩

theorem postProcessTiles_error_of (readable : Cell → Bool)
    (tiles : List (List Cell)) (t : List Cell) (ht : t ∈ tiles)
    (c : Cell) (hc : c ∈ t) (hr : readable c = false) :
    ∃ e, postProcessTiles readable tiles = .error e := by
  induction tiles with
  | nil => simp at ht
  | cons t₀ rest ih =>
    rcases List.mem_cons.mp ht with rfl | hmem
    · rcases ppTileLoop_error readable t c hc hr [] with ⟨c', he, _⟩
      exact ⟨.unreadable c', by simp [postProcessTiles, pp_tile, he]⟩
    · cases hpt : pp_tile readable t₀ with
      | error e => exact ⟨e, by simp [postProcessTiles, hpt]⟩
      | ok ds =>
        rcases ih hmem with ⟨e, he⟩
        exact ⟨e, by simp [postProcessTiles, hpt, he]⟩

theorem run_openifs_scm_noafr_eff (cfg : Config) (cell : Cell) (w : World) :
    (run_openifs_scm cfg cell false w).2 = ⟨false, none⟩ := by
  cases hl : scmRunner w.launch with
  | error e => cases e <;> simp [run_openifs_scm, hl]
  | ok cr =>
    by_cases hrc : cr.returncode = 0
    · cases hc : checkForRunFailures w.files with
      | ok u => cases u; simp [run_openifs_scm, hl, hrc, hc]
      | error e => cases e <;> simp [run_openifs_scm, hl, hrc, hc]
    · simp [run_openifs_scm, hl, hrc]

/-! ## Claims -/

/-- C1: the claim states that `run_cell` never raises past its boundary and
that in particular a nonzero exit status of the model process becomes a
negative `RunResult`. The code disagrees on exactly that input: a nonzero
exit status makes `run_openifs_scm` evaluate the undefined name
`exit_code`, raising `NameError`, which is not caught by the
`except (SCMError, TileRunError)` clause; the `finally` block of
`run_cell` then reads the never-assigned local `run_successful`, so an
`UnboundLocalError` escapes `run_cell` (first two conjuncts, for either
archive-retention setting). Launch and verification failures, by
contrast, are captured as negative results as the claim describes (last
two conjuncts). -/
theorem run_cell_nonzero_exit_escapes :
    (run_cell cfgEx cellEx false wNonzero).result = .error .unboundLocal ∧
    (run_cell cfgEx cellEx true wNonzero).result = .error .unboundLocal ∧
    (run_cell cfgEx cellEx false wLaunchMissing).result = .ok .failure ∧
    (run_cell cfgEx cellEx false wVerifyFail).result = .ok .failure := by
  decide

/-- C2: the claim states that a final-write failure aborts the job with a
nonzero exit status and that the per-cell directories survive for
diagnosis. In the code the `except RuntimeError` clause at the end of
`post_process` constructs `Error('failed write grid to disk: ...')` but
never raises it, so the failure is swallowed: nothing was written, yet no
exception propagates, the cleanup step still deletes the per-cell
directories when deletion was requested, and `main` returns 0. -/
theorem post_process_write_failure_swallowed :
    postProcessFinalize .runtimeError true =
      ⟨false, none, some .writeFailed, true⟩ ∧
    ppFinalExit (postProcessFinalize .runtimeError true) = 0 ∧
    (postProcessFinalize .runtimeError true).dirsDeleted = true ∧
    (postProcessFinalize .runtimeError true).written = false := by
  decide

/-- C3 counterexample: with a single time point at 5 s (5·10^9 ns) past the
epoch and a reference timestamp of 3 s, the to-model transform stores 0
(seconds since the first time point) and the rebase adds the reference
timestamp, producing 3 s — not the original time rounded to the nearest
second, which is 5 s. -/
theorem time_roundtrip_counterexample :
    rebaseTime (timeToIfs [5000000000] ⟨2009, 4, 6, 1, 0, 0⟩).time 3 = [3] ∧
    [(5000000000 : Int)].map roundHalfEvenNs = [5] ∧
    rebaseTime (timeToIfs [5000000000] ⟨2009, 4, 6, 1, 0, 0⟩).time 3 ≠
      [(5000000000 : Int)].map roundHalfEvenNs := by
  decide

/-- C3 amended: the to-model transform subtracts the first rounded time
point while the to-output rebase adds the reference timestamp, so the
round trip yields each element of `t` rounded to the nearest whole second
exactly under the hypothesis that the first time point rounds to the
reference timestamp (as holds for forcing sets whose first valid time is
the run start). -/
theorem time_roundtrip_amended (times : List Int) (ref : StartTime)
    (refSec : Int) (h : roundHalfEvenNs times.headI = refSec) :
    rebaseTime (timeToIfs times ref).time refSec =
      times.map roundHalfEvenNs := by
  rw [rebaseTime, timeToIfs_time_eq, List.map_map]
  have hfun : ((fun t => t + refSec) ∘ fun t =>
      roundHalfEvenNs t - roundHalfEvenNs times.headI) = roundHalfEvenNs := by
    funext t
    simp [Function.comp, h]
  rw [hfun]

/-- C3 amended witness: one time point at 2.5 s, which rounds half-to-even
to 2 s, with reference timestamp 2 s. -/
theorem time_roundtrip_amended_witness :
    roundHalfEvenNs (([2500000000] : List Int).headI) = 2 ∧
    rebaseTime (timeToIfs [2500000000] ⟨2009, 4, 6, 1, 0, 0⟩).time 2 =
      [(2500000000 : Int)].map roundHalfEvenNs :=
  ⟨by decide,
    time_roundtrip_amended [2500000000] ⟨2009, 4, 6, 1, 0, 0⟩ 2 (by decide)⟩

/-- C4 counterexample: `pp_tile` appends cell datasets in encounter order
and never sorts, so supplying the two cells of a one-row tile in
descending x order assembles a different tile dataset than supplying them
ascending — a permutation of the input changes the output, contradicting
order-independence. -/
theorem pp_tile_order_counterexample :
    ([⟨0, 1⟩, ⟨0, 0⟩] : List Cell).Perm [⟨0, 0⟩, ⟨0, 1⟩] ∧
    ppTileAssemble [⟨0, 1⟩, ⟨0, 0⟩] ≠ ppTileAssemble [⟨0, 0⟩, ⟨0, 1⟩] := by
  decide

/-- C4 amended: tile assembly preserves encounter order (rows keyed by
first occurrence of their `y_global`, cells within a row in input order);
the ascending row and column ordering claimed by the spec therefore holds
exactly when the cell sequence is supplied in strictly ascending row-major
order, which is the order `tile.cells()` supplies. -/
theorem pp_tile_sorted_input_ascending (l : List Cell)
    (h : l.Pairwise rowMajorLT) :
    rowsAscending (groupRows l) ∧
    ppTileAssemble l = (groupRows l).map Prod.snd := by
  refine ⟨?_, rfl⟩
  exact rowsAscending_foldl l [] h ⟨by simp, by simp⟩
    (fun c _ => by simp [cellBeyond])

/-- C4 amended witness: a 2×2 tile supplied in row-major order assembles
with strictly ascending rows and columns. -/
theorem pp_tile_sorted_input_ascending_witness :
    ([⟨0, 0⟩, ⟨0, 1⟩, ⟨1, 0⟩, ⟨1, 1⟩] : List Cell).Pairwise rowMajorLT ∧
    rowsAscending (groupRows [⟨0, 0⟩, ⟨0, 1⟩, ⟨1, 0⟩, ⟨1, 1⟩]) :=
  ⟨by decide,
    (pp_tile_sorted_input_ascending [⟨0, 0⟩, ⟨0, 1⟩, ⟨1, 0⟩, ⟨1, 1⟩]
      (by decide)).1⟩

/-- C5: grid assembly sorts the tile datasets by the maximum value of each
tile's row coordinate before concatenating, so when those maxima are
pairwise distinct, assembling any permutation of the tile results yields
an identical grid dataset. -/
theorem grid_assemble_order_independent (l₁ l₂ : List TileDS)
    (hp : l₁.Perm l₂) (hnd : (l₁.map tileKey).Nodup) :
    gridAssemble l₁ = gridAssemble l₂ := by
  have hs₁ : (gridAssemble l₁).Pairwise tileLe :=
    List.sorted_insertionSort tileLe l₁
  have hs₂ : (gridAssemble l₂).Pairwise tileLe :=
    List.sorted_insertionSort tileLe l₂
  have hperm : (gridAssemble l₁).Perm (gridAssemble l₂) :=
    (List.perm_insertionSort tileLe l₁).trans
      (hp.trans (List.perm_insertionSort tileLe l₂).symm)
  have hnd₁ : ((gridAssemble l₁).map tileKey).Nodup :=
    (((List.perm_insertionSort tileLe l₁).map tileKey).nodup_iff).mpr hnd
  exact sorted_perm_nodup_keys_eq _ _ hperm hs₁ hs₂ hnd₁

/-- A tile with id 0 whose row coordinates reach up to 5. -/
def tileA : TileDS := ⟨0, [5, 4]⟩

/-- A tile with id 1 whose row coordinates reach up to 3. -/
def tileB : TileDS := ⟨1, [3]⟩

/-- C5 witness: two tiles in either order assemble identically, and the
result is ordered by maximum row coordinate (3 before 5) rather than by
tile id (0 before 1). -/
theorem grid_assemble_order_independent_witness :
    ([tileA, tileB] : List TileDS).Perm [tileB, tileA] ∧
    ([tileA, tileB].map tileKey).Nodup ∧
    gridAssemble [tileA, tileB] = gridAssemble [tileB, tileA] ∧
    gridAssemble [tileA, tileB] = [tileB, tileA] :=
  ⟨by decide, by decide,
    grid_assemble_order_independent [tileA, tileB] [tileB, tileA]
      (by decide) (by decide),
    by decide⟩

/-- C6: the to-model transform yields a `date` coordinate constantly equal
to the YYYYMMDD integer of the reference date, a `second` coordinate
constantly equal to the seconds elapsed since midnight of the reference
date, and a `time` coordinate whose element i is time point i rounded to
the nearest whole second minus the first rounded time point; all three
have the length of the input time coordinate. The final conjunct bounds
the rounding error by half a second, so the conversion rounds to the
nearest second rather than truncating. -/
theorem time_to_ifs_coords_spec (times : List Int) (ref : StartTime) :
    (timeToIfs times ref).date =
      List.replicate times.length (refDateInt ref) ∧
    (timeToIfs times ref).sec =
      List.replicate times.length (secondsSinceMidnight ref) ∧
    (timeToIfs times ref).time =
      times.map (fun t => roundHalfEvenNs t - roundHalfEvenNs times.headI) ∧
    (timeToIfs times ref).date.length = times.length ∧
    (timeToIfs times ref).sec.length = times.length ∧
    (timeToIfs times ref).time.length = times.length ∧
    ∀ t : Int, 2 * (roundHalfEvenNs t * nsPerSec - t).natAbs ≤ 1000000000 := by
  refine ⟨rfl, rfl, timeToIfs_time_eq times ref, by simp [timeToIfs],
    by simp [timeToIfs], by simp [timeToIfs], roundHalfEvenNs_nearest⟩

/-- C7 counterexample: a run that fails at the archival stage (permission
denied moving `diagvar.nc` to the output directory) with archive-retention
enabled is reported as a captured failure, but its working directory is
left in place: it is neither relocated to the `failed.` archive directory
nor deleted, contrary to the claim that every post-staging failure with
retention enabled is relocated. -/
theorem cleanup_archival_failure_counterexample :
    (run_cell cfgEx cellEx true wArchiveFail).result = .ok .failure ∧
    (run_cell cfgEx cellEx true wArchiveFail).dirFate = .leftInPlace ∧
    (run_cell cfgEx cellEx true wArchiveFail).dirFate ≠
      .movedTo (failedDirName cfgEx cellEx) ∧
    (run_cell cfgEx cellEx true wArchiveFail).dirFate ≠ .deleted := by
  decide

/-- C7 amended: the terminal cleanup policy as implemented. (i) A
successful run's directory is deleted; (ii) with retention disabled a
captured failure's directory is deleted; with retention enabled, (iii) a
launch failure and (iv) a verification failure are relocated to
`failed.<timestamp>.<cell-id>` when the move succeeds (with the captured
stdout/stderr dumped into the directory first in the verification case);
(v) a failed relocation is swallowed, leaving the directory in place while
the run is still reported as a captured failure; but (vi) a failure at the
archival stage leaves the directory in place — it is neither deleted nor
relocated. -/
theorem run_cell_cleanup_policy_amended (cfg : Config) (cell : Cell)
    (w : World) :
    (∀ afr outs, (run_cell cfg cell afr w).result = .ok (.success outs) →
      (run_cell cfg cell afr w).dirFate = .deleted) ∧
    (w.stagingOk = true → (run_cell cfg cell false w).result = .ok .failure →
      (run_cell cfg cell false w).dirFate = .deleted) ∧
    (∀ k, w.stagingOk = true → scmRunner w.launch = .error (.scmError k) →
      w.failedMoveOk = true →
      (run_cell cfg cell true w).dirFate =
        .movedTo (failedDirName cfg cell) ∧
      (run_cell cfg cell true w).result = .ok .failure) ∧
    (∀ cr name, w.stagingOk = true → scmRunner w.launch = .ok cr →
      cr.returncode = 0 →
      checkForRunFailures w.files =
        .error (.scmError (.fileMissingOrEmpty name)) →
      w.failedMoveOk = true →
      (run_cell cfg cell true w).dirFate =
        .movedTo (failedDirName cfg cell) ∧
      (run_cell cfg cell true w).result = .ok .failure ∧
      (run_cell cfg cell true w).eff.dumpedStd = true) ∧
    (∀ k, w.stagingOk = true → scmRunner w.launch = .error (.scmError k) →
      w.failedMoveOk = false →
      (run_cell cfg cell true w).dirFate = .leftInPlace ∧
      (run_cell cfg cell true w).result = .ok .failure) ∧
    (∀ cr f, w.stagingOk = true → scmRunner w.launch = .ok cr →
      cr.returncode = 0 → checkForRunFailures w.files = .ok () →
      f ∈ archiveFiles → w.moves f ≠ .ok →
      (run_cell cfg cell true w).dirFate = .leftInPlace ∧
      (run_cell cfg cell true w).result = .ok .failure) := by
  refine ⟨?_, ?_, ?_, ?_, ?_, ?_⟩
  · intro afr outs h
    exact (run_cell_success_inv cfg cell afr w outs h).2.2.2
  · intro hst h
    rcases hro : run_openifs_scm cfg cell false w with ⟨res, eff⟩
    have heff : eff = ⟨false, none⟩ := by
      have hx := run_openifs_scm_noafr_eff cfg cell w
      rw [hro] at hx
      exact hx
    subst heff
    cases res with
    | ok u =>
      cases u
      cases ha : archive_results cfg cell w.moves with
      | ok outs =>
        have hr : run_cell cfg cell false w =
            ⟨.ok (.success outs), .deleted, ⟨false, none⟩⟩ := by
          simp [run_cell, hst, hro, ha]
        rw [hr] at h
        simp at h
      | error e =>
        rcases archiveLoop_error_form cfg cell w.moves archiveFiles e ha
          with ⟨k, rfl⟩
        rw [run_cell_archive_error cfg cell false w k _ hst hro ha]
        simp
    | error e =>
      cases e with
      | scmError k =>
        rw [run_cell_scm_error cfg cell false w k _ hst hro]
        simp
      | tileRunError => simp [run_cell, hst, hro]
      | pyNameError =>
        rw [run_cell_uncaught cfg cell false w _ hst hro] at h
        simp at h
      | unboundLocal => simp [run_cell, hst, hro] at h
  · intro k hst hl hmv
    have hro : run_openifs_scm cfg cell true w =
        (.error (.scmError k), ⟨false, some (failedDirName cfg cell)⟩) := by
      rw [run_openifs_scm_launch_fail cfg cell true w k hl]
      simp [hmv]
    rw [run_cell_scm_error cfg cell true w k _ hst hro]
    exact ⟨rfl, rfl⟩
  · intro cr name hst hl hrc hc hmv
    have hro : run_openifs_scm cfg cell true w =
        (.error (.scmError (.fileMissingOrEmpty name)),
          ⟨true, some (failedDirName cfg cell)⟩) := by
      rw [run_openifs_scm_verify_fail cfg cell true w cr _ hl hrc hc]
      simp [hmv]
    rw [run_cell_scm_error cfg cell true w _ _ hst hro]
    exact ⟨rfl, rfl, rfl⟩
  · intro k hst hl hmv
    have hro : run_openifs_scm cfg cell true w =
        (.error (.scmError k), ⟨false, none⟩) := by
      rw [run_openifs_scm_launch_fail cfg cell true w k hl]
      simp [hmv]
    rw [run_cell_scm_error cfg cell true w k _ hst hro]
    exact ⟨rfl, rfl⟩
  · intro cr f hst hl hrc hc hf hm
    rcases archiveLoop_error cfg cell w.moves archiveFiles f hf hm
      with ⟨k, hk⟩
    have hro := run_openifs_scm_ok cfg cell true w cr hl hrc hc
    rw [run_cell_archive_error cfg cell true w k _ hst hro hk]
    exact ⟨rfl, rfl⟩

/-- C7 amended witness: the concrete scenarios — a verification failure
with retention enabled is relocated with the captured output dumped; an
archival-stage failure with retention enabled is left in place; a
successful run is deleted. -/
theorem run_cell_cleanup_policy_amended_witness :
    ((run_cell cfgEx cellEx true wVerifyFail).dirFate =
      .movedTo (failedDirName cfgEx cellEx) ∧
     (run_cell cfgEx cellEx true wVerifyFail).result = .ok .failure ∧
     (run_cell cfgEx cellEx true wVerifyFail).eff.dumpedStd = true) ∧
    ((run_cell cfgEx cellEx true wArchiveFail).dirFate = .leftInPlace ∧
     (run_cell cfgEx cellEx true wArchiveFail).result = .ok .failure) :=
  ⟨(run_cell_cleanup_policy_amended cfgEx cellEx wVerifyFail).2.2.2.1
      ⟨0, "", ""⟩ "progvar.nc" rfl rfl rfl (by decide) rfl,
   (run_cell_cleanup_policy_amended cfgEx cellEx wArchiveFail).2.2.2.2.2
      ⟨0, "", ""⟩ "diagvar.nc" rfl rfl rfl (by decide) (by decide)
      (by decide)⟩

/-- C8: `_check_for_run_failures` raises exactly when at least one of the
four expected output files is missing or empty — the first conjunct
equates success of the check with all four files being present and
non-empty, and the second conjunct exhibits a missing-or-empty expected
file behind every raised error and conversely; the third conjunct shows a
cell run yields a successful `CellResult` only when the model process
completed with exit code 0 and all four expected files are present and
non-empty. -/
theorem verification_and_success_condition (fs : FileSys) :
    (exceptOk (checkForRunFailures fs) = expectedFiles.all (fileOk fs)) ∧
    ((∃ name ∈ expectedFiles, checkForRunFailures fs =
        .error (.scmError (.fileMissingOrEmpty name)) ∧
        fileOk fs name = false) ↔
      ¬ ∀ f ∈ expectedFiles, fileOk fs f = true) ∧
    (∀ cfg cell afr w outs, w.files = fs →
      (run_cell cfg cell afr w).result = .ok (.success outs) →
      ∃ cr, scmRunner w.launch = .ok cr ∧ cr.returncode = 0 ∧
        ∀ f ∈ expectedFiles, fileOk fs f = true) := by
  refine ⟨checkFiles_isOk fs expectedFiles, ?_, ?_⟩
  · constructor
    · rintro ⟨name, hmem, _, hbad⟩ hall
      rw [hall name hmem] at hbad
      cases hbad
    · intro hnot
      have hex : ∃ f ∈ expectedFiles, fileOk fs f = false := by
        by_contra hno
        apply hnot
        intro f hf
        by_contra hft
        exact hno ⟨f, hf, by simpa using hft⟩
      rcases hex with ⟨f, hf, hbad⟩
      rcases checkFiles_form fs expectedFiles with hok | ⟨name, hm, he, hb⟩
      · exfalso
        have hval := checkFiles_isOk fs expectedFiles
        rw [hok] at hval
        have hall : expectedFiles.all (fileOk fs) = true := by
          simpa [exceptOk] using hval.symm
        have := List.all_eq_true.mp hall f hf
        rw [hbad] at this
        cases this
      · exact ⟨name, hm, he, hb⟩
  · intro cfg cell afr w outs hwfs h
    rcases (run_cell_success_inv cfg cell afr w outs h).2.1
      with ⟨cr, hl, hrc, hchk⟩
    refine ⟨cr, hl, hrc, ?_⟩
    have hval := checkFiles_isOk w.files expectedFiles
    rw [show checkFiles w.files expectedFiles = .ok () from hchk] at hval
    have hall : expectedFiles.all (fileOk w.files) = true := by
      simpa [exceptOk] using hval.symm
    rw [← hwfs]
    exact List.all_eq_true.mp hall

/-- C8 witness: the success-necessity direction evaluated on a concrete
successful run, with the hypotheses discharged by computation. -/
theorem verification_and_success_condition_witness :
    exceptOk (checkForRunFailures okFiles) =
      expectedFiles.all (fileOk okFiles) ∧
    (∃ cr, scmRunner wOk.launch = .ok cr ∧ cr.returncode = 0 ∧
      ∀ f ∈ expectedFiles, fileOk okFiles f = true) :=
  ⟨(verification_and_success_condition okFiles).1,
    (verification_and_success_condition okFiles).2.2 cfgEx cellEx false wOk
      ["out/diagvar.20090406_010000.y0001x0002.nc",
       "out/diagvar2.20090406_010000.y0001x0002.nc",
       "out/progvar.20090406_010000.y0001x0002.nc"] rfl (by decide)⟩

/-- The single cell whose output files are unreadable in the C9 scenario. -/
def cellBad : Cell := ⟨0, 1⟩

/-- One tile holding the four cells of a 2×2 grid. -/
def tiles2x2 : List (List Cell) := [[⟨0, 0⟩, ⟨0, 1⟩, ⟨1, 0⟩, ⟨1, 1⟩]]

/-- Readability oracle: every cell's files are readable except `cellBad`. -/
def readableEx : Cell → Bool := fun c => c != cellBad

/-- C9 counterexample: with one unreadable cell among the four of a 2×2
grid, post-processing does not assemble the other three cells — the
`Error` raised by `pp_cell` propagates through `pp_tile` and
`post_process`, and the job's exit status is 1, not the claimed success. -/
theorem pp_single_failure_counterexample :
    ppMainExit readableEx tiles2x2 = 1 ∧
    postProcessTiles readableEx tiles2x2 =
      .error (.unreadable cellBad) := by
  decide

/-- C9 amended: failure isolation holds in the model-run phase but not in
post-processing. (i) Whenever any cell of any tile has unreadable output
files, the whole post-processing job exits with status 1; (ii) a cell
failing verification yields a captured negative `CellResult` from
`run_cell` (it raises nothing, so sibling cells are unaffected); (iii) a
sibling cell whose own run is healthy still succeeds. -/
theorem pp_failure_isolation_amended :
    (∀ (readable : Cell → Bool) (tiles : List (List Cell)) (t : List Cell)
      (c : Cell), t ∈ tiles → c ∈ t → readable c = false →
      ppMainExit readable tiles = 1) ∧
    (∀ cfg cell afr w cr name, w.stagingOk = true →
      scmRunner w.launch = .ok cr → cr.returncode = 0 →
      checkForRunFailures w.files =
        .error (.scmError (.fileMissingOrEmpty name)) →
      (run_cell cfg cell afr w).result = .ok .failure) ∧
    (∀ cfg cell w cr ts, w.stagingOk = true → scmRunner w.launch = .ok cr →
      cr.returncode = 0 → checkForRunFailures w.files = .ok () →
      archive_results cfg cell w.moves = .ok ts →
      (run_cell cfg cell false w).result = .ok (.success ts)) := by
  refine ⟨?_, ?_, ?_⟩
  · intro readable tiles t c ht hc hr
    rcases postProcessTiles_error_of readable tiles t ht c hc hr
      with ⟨e, he⟩
    simp [ppMainExit, he]
  · intro cfg cell afr w cr name hst hl hrc hc
    have hro := run_openifs_scm_verify_fail cfg cell afr w cr
      (.fileMissingOrEmpty name) hl hrc hc
    rw [run_cell_scm_error cfg cell afr w _ _ hst hro]
  · intro cfg cell w cr ts hst hl hrc hc ha
    rw [run_cell_all_ok cfg cell false w cr ts hst hl hrc hc ha]

/-- C9 amended witness: the 2×2 one-bad-cell scenario exits with status 1;
the bad cell's own run is a captured failure; a healthy sibling's run
succeeds. -/
theorem pp_failure_isolation_amended_witness :
    ppMainExit readableEx tiles2x2 = 1 ∧
    (run_cell cfgEx cellEx true wVerifyFail).result = .ok .failure ∧
    (run_cell cfgEx cellEx false wOk).result = .ok (.success
      ["out/diagvar.20090406_010000.y0001x0002.nc",
       "out/diagvar2.20090406_010000.y0001x0002.nc",
       "out/progvar.20090406_010000.y0001x0002.nc"]) :=
  ⟨pp_failure_isolation_amended.1 readableEx tiles2x2
      [⟨0, 0⟩, ⟨0, 1⟩, ⟨1, 0⟩, ⟨1, 1⟩] cellBad (by decide) (by decide)
      (by decide),
   pp_failure_isolation_amended.2.1 cfgEx cellEx true wVerifyFail
      ⟨0, "", ""⟩ "progvar.nc" rfl rfl rfl (by decide),
   pp_failure_isolation_amended.2.2 cfgEx cellEx wOk ⟨0, "", ""⟩
      ["out/diagvar.20090406_010000.y0001x0002.nc",
       "out/diagvar2.20090406_010000.y0001x0002.nc",
       "out/progvar.20090406_010000.y0001x0002.nc"]
      rfl rfl rfl (by decide) (by decide)⟩

/-- C10: with every move succeeding, `archive_results` moves exactly the
three files listed in `archiveFiles` — `diagvar.nc`, `diagvar2.nc` and
`progvar.nc` — into the output directory renamed
`<base>.<timestamp>.<cell-id><ext>`, and returns exactly those three
target paths; `onecol.r` belongs to the verified set but not to the
archived set, and on a successful run the run directory (still holding
`onecol.r`) is deleted. -/
theorem archive_results_exact_files (cfg : Config) (cell : Cell)
    (moves : String → MoveOutcome)
    (h : ∀ f ∈ archiveFiles, moves f = .ok) :
    archive_results cfg cell moves =
      .ok (archiveFiles.map (fun af => cfg.output_directory ++ "/" ++
        targetName af (dateIdStr cfg.start_time) (cellIdStr cell))) ∧
    archiveFiles = ["diagvar.nc", "diagvar2.nc", "progvar.nc"] ∧
    ("onecol.r" ∈ expectedFiles ∧ "onecol.r" ∉ archiveFiles) ∧
    (∀ afr w outs, w.moves = moves →
      (run_cell cfg cell afr w).result = .ok (.success outs) →
      (run_cell cfg cell afr w).dirFate = .deleted) := by
  refine ⟨archiveLoop_ok cfg cell moves archiveFiles h, rfl, by decide, ?_⟩
  intro afr w outs _ hres
  exact (run_cell_success_inv cfg cell afr w outs hres).2.2.2

/-- C10 witness: the archived paths at a concrete configuration and cell,
showing the three renamed targets explicitly. -/
theorem archive_results_exact_files_witness :
    archive_results cfgEx cellEx (fun _ => .ok) =
      .ok ["out/diagvar.20090406_010000.y0001x0002.nc",
        "out/diagvar2.20090406_010000.y0001x0002.nc",
        "out/progvar.20090406_010000.y0001x0002.nc"] ∧
    "onecol.r" ∉ archiveFiles := by
  have h := archive_results_exact_files cfgEx cellEx (fun _ => .ok)
    (fun f _ => rfl)
  refine ⟨?_, h.2.2.1.2⟩
  rw [h.1]
  decide
